import Mathlib

/-!
Shallow embedding of the RAG pipeline of the repository (a Cloudflare-Workers
PDF tutor).  JS strings are modelled as `List Char`, JS numbers indexing
strings/arrays as `Nat`, embedding vectors as `List Int` (their values are
never inspected), thrown JS errors as the `error` branch of `Except`, and the
external AI / DB / Vectorize boundaries as explicit function parameters.
Loops that the source bounds only dynamically are modelled with explicit fuel;
`none` means "the loop has not finished within the given fuel".
-/

/-! ## Generic character-list helpers (model of JS string primitives) -/

/-- Model of the whitespace class used by JS `String.prototype.trim`. -/
def wsp (c : Char) : Bool := c.isWhitespace

/-- Right part of JS `trim`: remove trailing whitespace. -/
def trimRightChars (s : List Char) : List Char := (s.reverse.dropWhile wsp).reverse

/-- Model of JS `s.trim()`: remove whitespace on both ends. -/
def trimChars (s : List Char) : List Char := (trimRightChars s).dropWhile wsp

/-- Model of JS `s.substring(a, b)` for `a ≤ b` (the only way it is called here). -/
def sliceChars (s : List Char) (a b : Nat) : List Char := (s.take b).drop a

/-- Decimal digit character, `digitChar d = '0' + d` for `d < 10`. -/
def digitChar (d : Nat) : Char := Char.ofNat (48 + d)

/-- Fuel-indexed decimal rendering of a natural number (big-endian digits). -/
def natDigitsAux : Nat → Nat → List Char
  | 0, _ => []
  | fuel + 1, n => if n < 10 then [digitChar n] else natDigitsAux fuel (n / 10) ++ [digitChar (n % 10)]

/-- Model of JS template interpolation of a nonnegative integer (its decimal digits). -/
def natDigits (n : Nat) : List Char := natDigitsAux (n + 1) n

/-! ## Configuration constants (src/config/constants.ts, RAG_CONFIG and LLM_CONFIG) -/

def CHUNK_SIZE : Nat := 400
def CHUNK_OVERLAP : Nat := 50
def MAX_CONTEXT_LENGTH : Nat := 1500
def MIN_TEXT_LENGTH : Nat := 20
def MAX_INPUT_TEXT_LENGTH : Nat := 1000

/-! ## Chunker (rag.service.ts, chunkText)

The source loop reads `CHUNK_SIZE` and `CHUNK_OVERLAP` from `RAG_CONFIG`; the
spec's contract is `chunk(text, chunkSize, overlap)`, so the loop body is
embedded with the two constants as parameters `cs` and `ov` and the source
function is the instance at `(CHUNK_SIZE, CHUNK_OVERLAP)`.  The `while` loop is
given explicit fuel; `none` means the loop has not terminated within the fuel.
`startIndex += cs - ov` uses `Nat` subtraction, which agrees with the JS
subtraction whenever `ov ≤ cs` (the only regime any claim quantifies over). -/

def chunkLoop (text : List Char) (cs ov : Nat) : Nat → Nat → List (List Char) → Option (List (List Char))
  | 0, _, _ => none
  | fuel + 1, startIndex, chunks =>
    if startIndex < text.length then
      let endIndex := min (startIndex + cs) text.length
      let c := trimChars (sliceChars text startIndex endIndex)
      let chunks2 := if 0 < c.length then chunks ++ [c] else chunks
      let start2 := startIndex + (cs - ov)
      if text.length ≤ start2 then some chunks2
      else chunkLoop text cs ov fuel start2 chunks2
    else some chunks

/-- Parameterised `chunkText`: the empty/short branch returns `[text]`, else the
sliding-window loop runs with fuel `text.length` (sufficient whenever the
advance step is positive). -/
def chunkTextGen (cs ov : Nat) (text : List Char) : Option (List (List Char)) :=
  if text.length ≤ cs then some [text] else chunkLoop text cs ov text.length 0 []

/-- Source `chunkText` at the deployed configuration (400, 50); the loop
provably terminates there, so the `getD` default is never used. -/
def chunkText (text : List Char) : List (List Char) :=
  (chunkTextGen CHUNK_SIZE CHUNK_OVERLAP text).getD []

/-- Window starting at `k * s` of width `cs` (clipped at the end of the text),
the text the loop trims at its `k`-th iteration. -/
def windowAt (text : List Char) (cs s k : Nat) : List Char :=
  sliceChars text (k * s) (min (k * s + cs) text.length)

/-- Number of loop iterations: how many multiples of `s` are below `len`. -/
def numWindows (len s : Nat) : Nat := (len + s - 1) / s

/-! ## ChunkedDocument and processDocument (rag.service.ts) -/

structure ChunkedDocument where
  filename : List Char
  fullText : List Char
  pageChunks : List (Nat × List (List Char))
  totalPages : Nat
  totalChunks : Nat
deriving DecidableEq

/-- Model of `pages.join('\n\n')`. -/
def joinPages : List (List Char) → List Char
  | [] => []
  | [p] => p
  | p :: rest => p ++ '\n' :: '\n' :: [] ++ joinPages rest

/-- The `pages.forEach` body: page number `index + 1` mapped to its chunks.
The JS `Record<number, string[]>` is modelled as an association list in
insertion (= page-number) order. -/
def chunkPages : List (List Char) → Nat → List (Nat × List (List Char))
  | [], _ => []
  | t :: rest, i => (i + 1, chunkText t) :: chunkPages rest (i + 1)

/-- The `totalChunks` accumulator of `processDocument`. -/
def countChunks : List (List Char) → Nat
  | [] => 0
  | t :: rest => (chunkText t).length + countChunks rest

/-- Model of `processDocument(filename, pages)`. -/
def processDocument (filename : List Char) (pages : List (List Char)) : ChunkedDocument :=
  ⟨filename, joinPages pages, chunkPages pages 0, pages.length, countChunks pages⟩

/-! ## Embedder (rag.service.ts, generateEmbedding)

The Cloudflare `env.AI.run` boundary is a parameter `backend : Nat → Except
JsError (List Int)` giving, per attempt number, either a thrown error or the
embedding extracted from the response; the in-`try` emptiness check on the
extracted vector is kept.  The source recursion on `retryCount` with bound
`MAX_RETRIES` is embedded structurally on `retriesLeft = MAX_RETRIES -
retryCount`, with `attempt = retryCount`; `retryCount < MAX_RETRIES` is
exactly `0 < retriesLeft`.  The second component counts attempts made. -/

structure JsError where
  name : List Char
  message : List Char
deriving DecidableEq

structure EmbeddingResult where
  embedding : List Int
  dimensions : Nat
deriving DecidableEq

def MAX_RETRIES : Nat := 1

/-- Model of JS `s.includes(sub)`: some suffix of `s` starts with `sub`. -/
def hasSub (sub : List Char) : List Char → Bool
  | [] => sub.isEmpty
  | c :: rest => sub.isPrefixOf (c :: rest) || hasSub sub rest

/-- Source retryability test: error kind `InferenceUpstreamError`, or message
containing `internal error` or `upstream`. -/
def isRetryableErr (e : JsError) : Bool :=
  e.name == "InferenceUpstreamError".toList
    || hasSub ("internal error".toList) e.message
    || hasSub ("upstream".toList) e.message

def emptyEmbErr : JsError := ⟨"Error".toList, "Embedding is empty or invalid".toList⟩

/-- One `try` body: call the backend, reject an empty extracted vector. -/
def attemptOnce (backend : Nat → Except JsError (List Int)) (attempt : Nat) : Except JsError (List Int) :=
  match backend attempt with
  | .ok v => if v.length = 0 then .error emptyEmbErr else .ok v
  | .error e => .error e

def generateEmbeddingGo (backend : Nat → Except JsError (List Int)) : Nat → Nat → Except JsError EmbeddingResult × Nat
  | retriesLeft, attempt =>
    match attemptOnce backend attempt with
    | .ok v => (.ok ⟨v, v.length⟩, attempt + 1)
    | .error e =>
      match retriesLeft with
      | 0 => (.error e, attempt + 1)
      | rl + 1 =>
        if isRetryableErr e then generateEmbeddingGo backend rl (attempt + 1)
        else (.error e, attempt + 1)

/-- Model of `generateEmbedding(text, env)` (initial `retryCount = 0`),
returning the outcome and the number of attempts made. -/
def generateEmbeddingRun (backend : Nat → Except JsError (List Int)) : Except JsError EmbeddingResult × Nat :=
  generateEmbeddingGo backend MAX_RETRIES 0

/-! ## Retrieval and augmentation (rag.service.ts, createAugmentedPrompt) -/

structure RankedChunk where
  text : List Char
  pageNumber : Option Nat
  score : Int
deriving DecidableEq

structure SourceRef where
  pageNumber : Option Nat
  score : Int
deriving DecidableEq

structure AugmentedPromptData where
  originalPrompt : List Char
  relevantText : List Char
  augmentedPrompt : List Char
  sources : List SourceRef
deriving DecidableEq

/-- The `'\n\n'` separator appended after every included chunk. -/
def nl2 : List Char := '\n' :: '\n' :: []

/-- The source `for … of relevantTexts` loop with its `break` on budget excess. -/
def augmentLoop : List RankedChunk → List Char → List SourceRef → List Char × List SourceRef
  | [], acc, srcs => (acc, srcs)
  | item :: rest, acc, srcs =>
    if MAX_CONTEXT_LENGTH < acc.length + item.text.length then (acc, srcs)
    else augmentLoop rest (acc ++ item.text ++ nl2) (srcs ++ [⟨item.pageNumber, item.score⟩])

/-- Model of `createAugmentedPrompt(originalPrompt, relevantTexts)`. -/
def createAugmentedPrompt (originalPrompt : List Char) (relevantTexts : List RankedChunk) : AugmentedPromptData :=
  let r := augmentLoop relevantTexts [] []
  ⟨originalPrompt,
   trimChars r.1,
   "Context information from the document:\n".toList
     ++ trimChars r.1
     ++ "\n\nBased on the context above, ".toList
     ++ originalPrompt,
   r.2⟩

/-- Concatenation, separators included, of the texts of a list of chunks —
the raw (untrimmed) `relevantText` accumulated for exactly those chunks. -/
def chunkBlock (c : RankedChunk) : List Char := c.text ++ nl2

def includedText (l : List RankedChunk) : List Char := (l.map chunkBlock).flatten

/-! ## Vector Store Adapter (validation.service.ts / vector.service part)

Only the id discipline matters to the claims: the Vectorize index is modelled
as the list of records it holds, an upsert as the records it writes (the
batching by 100 does not change the set written), `deleteByIds` as a filter,
and `Date.now()` as a timestamp parameter. -/

structure VectorMetadata where
  filename : List Char
  pageNumber : Option Nat
  vtype : List Char
  timestamp : Nat
deriving DecidableEq

structure VectorRecord where
  id : List Char
  values : List Int
  metadata : VectorMetadata
deriving DecidableEq

/-- Id written by `upsertFullTextVector`: `` `${filename}:full` ``. -/
def fullTextVectorId (filename : List Char) : List Char := filename ++ ":full".toList

/-- Id written by `upsertPageVectors`: `` `${filename}:page:${pageNumber}` ``. -/
def pageVectorId (filename : List Char) (n : Nat) : List Char :=
  filename ++ ":page:".toList ++ natDigits n

/-- The `(filename, pageNumber, kind)` triple of the data model: `full` records
carry no page number, `page` records carry one. -/
inductive VectorKind
  | full
  | page (n : Nat)
deriving DecidableEq

def recordId (filename : List Char) : VectorKind → List Char
  | .full => fullTextVectorId filename
  | .page n => pageVectorId filename n

/-- Record written by `upsertFullTextVector(filename, embedding)`. -/
def upsertFullTextVector (filename : List Char) (embedding : List Int) (ts : Nat) : VectorRecord :=
  ⟨fullTextVectorId filename, embedding, ⟨filename, none, "full".toList, ts⟩⟩

/-- Records written by `upsertPageVectors(filename, pageEmbeddings)`. -/
def upsertPageVectors (filename : List Char) (pageEmbeddings : List (Nat × List Int)) (ts : Nat) : List VectorRecord :=
  pageEmbeddings.map fun pe => ⟨pageVectorId filename pe.1, pe.2, ⟨filename, some pe.1, "page".toList, ts⟩⟩

/-- Ids passed to `deleteByIds` by `deleteDocumentVectors(filename)`: the
full-text id plus the guessed page ids 1..100. -/
def deleteDocumentVectorIds (filename : List Char) : List (List Char) :=
  fullTextVectorId filename :: (List.range' 1 100).map (pageVectorId filename)

/-- Effect of `deleteByIds` on the stored records. -/
def applyDeleteByIds (store : List VectorRecord) (ids : List (List Char)) : List VectorRecord :=
  store.filter fun r => ! ids.contains r.id

/-! ## Document Store Adapter (validation.service.ts / vector.service part)

The D1 `documents` table is modelled as an association list from the primary
key `id` to the stored row; `INSERT OR REPLACE` replaces the row with the same
key; serialising `pageChunks` through `JSON.stringify`/`JSON.parse` is
modelled as the identity on the association list.  The stored row has no
count columns: `getDocument` recomputes `totalPages` from the number of keys
and `totalChunks` as the sum of the chunk-list lengths. -/

structure DocRow where
  fullText : List Char
  pageTexts : List (Nat × List (List Char))
deriving DecidableEq

def storeDocument (d : ChunkedDocument) (db : List (List Char × DocRow)) : List (List Char × DocRow) :=
  (d.filename, ⟨d.fullText, d.pageChunks⟩) :: db.filter fun row => ! (row.1 == d.filename)

def getDocument (filename : List Char) (db : List (List Char × DocRow)) : Option ChunkedDocument :=
  match db.find? (fun row => row.1 == filename) with
  | none => none
  | some row =>
    some ⟨row.1, row.2.fullText, row.2.pageTexts, row.2.pageTexts.length,
      (row.2.pageTexts.map fun pc => pc.2.length).sum⟩

/-! ## Content generators (llm.service.ts)

The `handleChatRequest` boundary is a parameter `resp`: `.error e` models a
throw reaching the generator's outer `catch`, `.ok (some t)` a response object
whose `response` field holds `t`, `.ok none` a response object without that
field.  `JSON.parse` on the extracted array text is an abstract parameter
`parse` returning well-typed question objects exactly when it succeeds on an
array of objects; the second component of each result counts calls made to
the generation backend. -/

structure McqRaw where
  question : List Char
  options : List (List Char)
  correct : Nat
  explanation : List Char
deriving DecidableEq

structure McqQuestion where
  page : Nat
  question : List Char
  options : List (List Char)
  correct : Nat
  explanation : List Char
  id : Option Nat
deriving DecidableEq

/-- Fallback transcript used when the response object has no `response` field. -/
def transcriptDefaultMsg (p : Nat) : List Char :=
  "Summary for page ".toList ++ natDigits p
    ++ ": Educational content about the topics discussed in this section.".toList

/-- Fallback transcript returned by the outer `catch`. -/
def transcriptErrorMsg (p : Nat) : List Char :=
  "Summary for page ".toList ++ natDigits p
    ++ ": Content analysis in progress. Please refresh to see updates.".toList

/-- Model of `generateTranscript(pageText, pageNumber, env)`; the page text
only feeds the prompt, never the control flow (the short-text check is
commented out in the source).  Second component: backend calls made. -/
def generateTranscriptRun (resp : Except JsError (Option (List Char))) (_pageText : List Char) (pageNumber : Nat) : List Char × Nat :=
  match resp with
  | .error _ => (transcriptErrorMsg pageNumber, 1)
  | .ok (some t) => (t, 1)
  | .ok none => (transcriptDefaultMsg pageNumber, 1)

/-- Source `createFallbackMcqs(pageNumber)` (fallback items carry no `id`). -/
def createFallbackMcqs (pageNumber : Nat) : List McqQuestion :=
  [⟨pageNumber,
    "What is the main topic discussed on page ".toList ++ natDigits pageNumber ++ "?".toList,
    ["Educational content".toList, "Technical concepts".toList,
     "Research findings".toList, "All of the above".toList],
    3,
    "This page covers various educational and technical topics.".toList,
    none⟩,
   ⟨pageNumber,
    "Which statement best describes the content on page ".toList ++ natDigits pageNumber ++ "?".toList,
    ["It provides theoretical knowledge".toList, "It contains practical examples".toList,
     "It discusses research methodologies".toList, "Content requires detailed analysis".toList],
    3,
    "The content requires proper PDF parsing for accurate assessment.".toList,
    none⟩]

/-- The `questions.map((q, index) => ({...q, page: pageNumber, id: index}))` step. -/
def attachPageId (pageNumber : Nat) (qs : List McqRaw) : List McqQuestion :=
  qs.enum.map fun iq => ⟨pageNumber, iq.2.question, iq.2.options, iq.2.correct, iq.2.explanation, some iq.1⟩

/-- Model of the regex match `responseText.match(/\[[\s\S]*\]/)`: the leftmost
`[` that is followed by some `]`, greedily extended to the last `]`. -/
def extractJsonArray (s : List Char) : Option (List Char) :=
  match s.findIdx? (fun c => c = '['), s.reverse.findIdx? (fun c => c = ']') with
  | some i, some jr =>
    let j := s.length - 1 - jr
    if i < j then some (sliceChars s i (j + 1)) else none
  | _, _ => none

/-- Model of `generateMcqs(pageText, pageNumber, env)`.  Second component:
backend calls made. -/
def generateMcqsRun (parse : List Char → Option (List McqRaw))
    (resp : Except JsError (Option (List Char)))
    (pageText : List Char) (pageNumber : Nat) : List McqQuestion × Nat :=
  if (trimChars (pageText.take MAX_INPUT_TEXT_LENGTH)).length < MIN_TEXT_LENGTH then
    (createFallbackMcqs pageNumber, 0)
  else
    match resp with
    | .error _ => (createFallbackMcqs pageNumber, 1)
    | .ok respOpt =>
      match extractJsonArray (respOpt.getD []) with
      | some m =>
        match parse m with
        | some questions =>
          if 0 < questions.length then (attachPageId pageNumber questions, 1)
          else (createFallbackMcqs pageNumber, 1)
        | none => (createFallbackMcqs pageNumber, 1)
      | none => (createFallbackMcqs pageNumber, 1)

/-! ## Concrete fixtures used by counterexamples and witnesses -/

/-- A retryable error, as classified by `isRetryableErr`. -/
def upstreamErr : JsError := ⟨"InferenceUpstreamError".toList, "upstream error".toList⟩

/-- A fatal (non-retryable) error. -/
def fatalErr : JsError := ⟨"Error".toList, "bad input".toList⟩

/-- Backend that fails with a retryable error on attempts 0 and 1 and
succeeds on attempt 2 — the scenario of the retry claim. -/
def cexBackend3 : Nat → Except JsError (List Int) :=
  fun n => if n < 2 then .error upstreamErr else .ok [1]

/-- Everything actually written for filename `doc` of a 101-page document:
the full-text vector and one vector per page. -/
def cexWrittenStore : List VectorRecord :=
  upsertFullTextVector ("doc".toList) [0] 0
    :: upsertPageVectors ("doc".toList) ((List.range' 1 101).map fun n => (n, [0])) 0

/-! ## Lemmas about trimming -/

theorem wsp_nl : wsp '\n' = true := by decide

theorem length_dropWhile_wsp_le (l : List Char) : (l.dropWhile wsp).length ≤ l.length := by
  induction l with
  | nil => simp
  | cons c rest ih =>
    by_cases h : wsp c
    · simp only [List.dropWhile_cons, h, if_true, List.length_cons]
      omega
    · simp [List.dropWhile_cons, h]

theorem trimRight_length_le (s : List Char) : (trimRightChars s).length ≤ s.length := by
  have h := length_dropWhile_wsp_le s.reverse
  simpa [trimRightChars] using h

theorem trimChars_length_le_trimRight (s : List Char) : (trimChars s).length ≤ (trimRightChars s).length := by
  simpa [trimChars] using length_dropWhile_wsp_le (trimRightChars s)

theorem trimChars_length_le (s : List Char) : (trimChars s).length ≤ s.length :=
  le_trans (trimChars_length_le_trimRight s) (trimRight_length_le s)

theorem trimRight_append_nl (s : List Char) : trimRightChars (s ++ nl2) = trimRightChars s := by
  simp [trimRightChars, nl2, List.dropWhile_cons, wsp_nl]

/-! ## Lemmas about the augmentation loop -/

theorem includedText_nil : includedText [] = [] := rfl

theorem includedText_cons (c : RankedChunk) (l : List RankedChunk) :
    includedText (c :: l) = c.text ++ nl2 ++ includedText l := by
  simp [includedText, chunkBlock, List.append_assoc]

theorem augmentLoop_trim_le : ∀ (items : List RankedChunk) (acc : List Char) (srcs : List SourceRef),
    (trimRightChars acc).length ≤ MAX_CONTEXT_LENGTH →
    (trimRightChars (augmentLoop items acc srcs).1).length ≤ MAX_CONTEXT_LENGTH := by
  intro items
  induction items with
  | nil => intro acc srcs h; simpa [augmentLoop] using h
  | cons c rest ih =>
    intro acc srcs h
    by_cases hc : MAX_CONTEXT_LENGTH < acc.length + c.text.length
    · simpa [augmentLoop, if_pos hc] using h
    · have e1 : acc ++ c.text ++ nl2 = (acc ++ c.text) ++ nl2 := by
        simp [List.append_assoc]
      have hstep : (trimRightChars (acc ++ c.text ++ nl2)).length ≤ MAX_CONTEXT_LENGTH := by
        rw [e1, trimRight_append_nl]
        have h2 := trimRight_length_le (acc ++ c.text)
        simp only [List.length_append] at h2
        omega
      simp only [augmentLoop, if_neg hc]
      exact ih _ _ hstep

theorem augmentLoop_spec : ∀ (items : List RankedChunk) (acc : List Char) (srcs : List SourceRef),
    ∃ k, k ≤ items.length ∧
      augmentLoop items acc srcs =
        (acc ++ includedText (items.take k),
         srcs ++ (items.take k).map (fun c => ⟨c.pageNumber, c.score⟩)) ∧
      (k = items.length ∨ ∃ c rest, items.drop k = c :: rest ∧
        MAX_CONTEXT_LENGTH < (acc ++ includedText (items.take k)).length + c.text.length) := by
  intro items
  induction items with
  | nil =>
    intro acc srcs
    exact ⟨0, by simp [augmentLoop, includedText]⟩
  | cons c rest ih =>
    intro acc srcs
    by_cases hc : MAX_CONTEXT_LENGTH < acc.length + c.text.length
    · refine ⟨0, by simp, ?_, Or.inr ⟨c, rest, rfl, ?_⟩⟩
      · simp [augmentLoop, if_pos hc, includedText]
      · simpa [includedText] using hc
    · obtain ⟨k, hk, heq, hcond⟩ := ih (acc ++ c.text ++ nl2) (srcs ++ [⟨c.pageNumber, c.score⟩])
      refine ⟨k + 1, by simpa using Nat.succ_le_succ hk, ?_, ?_⟩
      · simp only [augmentLoop, if_neg hc]
        rw [heq]
        simp [includedText_cons, List.append_assoc]
      · rcases hcond with h | ⟨c2, rest2, hdrop, hlen⟩
        · exact Or.inl (by simp [h])
        · refine Or.inr ⟨c2, rest2, by simpa using hdrop, ?_⟩
          have harr : ((c :: rest).take (k + 1)) = c :: rest.take k := by simp
          rw [harr, includedText_cons]
          simp only [List.length_append] at hlen ⊢
          omega

/-- C1: for every goal and ranked chunk list, `createAugmentedPrompt` keeps
`relevantText` within `MAX_CONTEXT_LENGTH`; the included chunks are a prefix
`items.take k` of the ranked input, `relevantText` is exactly the trimmed
concatenation of that prefix, `sources` has one entry per included chunk in
inclusion order, and either every chunk was included or the first excluded
chunk is the first whose addition would exceed the budget. -/
theorem createAugmentedPrompt_correct (goal : List Char) (items : List RankedChunk) :
    (createAugmentedPrompt goal items).relevantText.length ≤ MAX_CONTEXT_LENGTH ∧
    ∃ k, k ≤ items.length ∧
      (createAugmentedPrompt goal items).relevantText = trimChars (includedText (items.take k)) ∧
      (createAugmentedPrompt goal items).sources = (items.take k).map (fun c => ⟨c.pageNumber, c.score⟩) ∧
      (k = items.length ∨ ∃ c rest, items.drop k = c :: rest ∧
        MAX_CONTEXT_LENGTH < (includedText (items.take k)).length + c.text.length) := by
  obtain ⟨k, hk, heq, hcond⟩ := augmentLoop_spec items [] []
  constructor
  · have h0 : (trimRightChars ([] : List Char)).length ≤ MAX_CONTEXT_LENGTH := by
      simp [trimRightChars, MAX_CONTEXT_LENGTH]
    have hb := augmentLoop_trim_le items [] [] h0
    have hle := trimChars_length_le_trimRight (augmentLoop items [] []).1
    simp only [createAugmentedPrompt]
    omega
  · refine ⟨k, hk, ?_, ?_, ?_⟩
    · simp [createAugmentedPrompt, heq]
    · simp [createAugmentedPrompt, heq]
    · simpa using hcond

/-! ## Lemmas about processDocument -/

theorem chunkPages_keys : ∀ (pages : List (List Char)) (i : Nat),
    (chunkPages pages i).map (fun pc => pc.1) = List.range' (i + 1) pages.length := by
  intro pages
  induction pages with
  | nil => intro i; simp [chunkPages]
  | cons t rest ih =>
    intro i
    simp [chunkPages, List.range'_succ, ih (i + 1)]

theorem countChunks_eq : ∀ (pages : List (List Char)) (i : Nat),
    countChunks pages = ((chunkPages pages i).map (fun pc => pc.2.length)).sum := by
  intro pages
  induction pages with
  | nil => intro i; simp [countChunks, chunkPages]
  | cons t rest ih => intro i; simp [countChunks, chunkPages, ih (i + 1)]

/-- C6: for every filename and page list, the `ChunkedDocument` built by
`processDocument` satisfies the data-model invariant: `totalChunks` is the sum
of the per-page chunk-list lengths, the keys of `pageChunks` are exactly the
contiguous range `1..totalPages`, and `totalPages` is the number of input
pages. -/
theorem processDocument_invariant (filename : List Char) (pages : List (List Char)) :
    (processDocument filename pages).totalChunks =
      (((processDocument filename pages).pageChunks).map (fun pc => pc.2.length)).sum ∧
    ((processDocument filename pages).pageChunks).map (fun pc => pc.1) =
      List.range' 1 (processDocument filename pages).totalPages ∧
    (processDocument filename pages).totalPages = pages.length := by
  refine ⟨?_, ?_, rfl⟩
  · simpa [processDocument] using countChunks_eq pages 0
  · simpa [processDocument] using chunkPages_keys pages 0

/-- C10: storing a `ChunkedDocument` whose counts satisfy the data-model
invariant and reading it back returns the very same document, and every
document `getDocument` ever returns has its counts recomputed from the stored
`pageChunks`, hence satisfies the invariant. -/
theorem storeDocument_getDocument_roundtrip (d : ChunkedDocument) (db : List (List Char × DocRow))
    (h1 : d.totalPages = d.pageChunks.length)
    (h2 : d.totalChunks = (d.pageChunks.map (fun pc => pc.2.length)).sum) :
    getDocument d.filename (storeDocument d db) = some d ∧
    ∀ (f : List Char) (db2 : List (List Char × DocRow)) (g : ChunkedDocument),
      getDocument f db2 = some g →
      g.totalPages = g.pageChunks.length ∧
      g.totalChunks = (g.pageChunks.map (fun pc => pc.2.length)).sum := by
  constructor
  · show getDocument d.filename (storeDocument d db) = some d
    unfold getDocument storeDocument
    rw [List.find?_cons_of_pos _ (by simp)]
    cases d with
    | mk fn ft pc tp tc =>
      simp only at h1 h2 ⊢
      simp [h1, h2]
  · intro f db2 g hg
    unfold getDocument at hg
    cases hfind : db2.find? (fun row => row.1 == f) with
    | none => rw [hfind] at hg; cases hg
    | some row =>
      rw [hfind] at hg
      cases hg
      simp

/-- C9: for any text whose truncated-and-trimmed form is below
`MIN_TEXT_LENGTH`, `generateMcqs` returns the fixed fallback array with zero
calls to the generation backend; that array has length 2 and each item has
exactly 4 options and a `correct` index at most 3. -/
theorem generateMcqs_short_text_fallback (parse : List Char → Option (List McqRaw))
    (resp : Except JsError (Option (List Char))) (pageText : List Char) (p : Nat)
    (h : (trimChars (pageText.take MAX_INPUT_TEXT_LENGTH)).length < MIN_TEXT_LENGTH) :
    generateMcqsRun parse resp pageText p = (createFallbackMcqs p, 0) ∧
    (createFallbackMcqs p).length = 2 ∧
    ∀ q ∈ createFallbackMcqs p, q.options.length = 4 ∧ q.correct ≤ 3 := by
  refine ⟨?_, rfl, ?_⟩
  · simp only [generateMcqsRun, if_pos h]
  · intro q hq
    simp only [createFallbackMcqs, List.mem_cons, List.mem_singleton] at hq
    rcases hq with rfl | rfl | hq
    · exact ⟨rfl, Nat.le.refl⟩
    · exact ⟨rfl, Nat.le.refl⟩
    · cases hq

/-- Witness for the short-text fallback theorem at `pageText = "hi"`, `p = 1`,
a backend response that is never consulted and a parser that never succeeds. -/
theorem generateMcqs_short_text_fallback_witness :
    (trimChars (("hi".toList).take MAX_INPUT_TEXT_LENGTH)).length < MIN_TEXT_LENGTH ∧
    (generateMcqsRun (fun _ => none) (Except.ok none) ("hi".toList) 1 = (createFallbackMcqs 1, 0) ∧
      (createFallbackMcqs 1).length = 2 ∧
      ∀ q ∈ createFallbackMcqs 1, q.options.length = 4 ∧ q.correct ≤ 3) :=
  ⟨by decide, generateMcqs_short_text_fallback (fun _ => none) (Except.ok none) ("hi".toList) 1 (by decide)⟩

/-- C8: the content generators are total over every backend outcome: the
transcript is always one of the backend text, the no-field default, or the
catch fallback; the MCQ result is always either the deterministic fallback —
in particular whenever no well-formed JSON array can be parsed from the
response — or the page-tagged parsed questions of a successful parse. -/
theorem generators_never_throw (parse : List Char → Option (List McqRaw))
    (respT respM : Except JsError (Option (List Char)))
    (textT textM : List Char) (p q : Nat) :
    ((∃ s, respT = .ok (some s) ∧ (generateTranscriptRun respT textT p).1 = s) ∨
      (generateTranscriptRun respT textT p).1 = transcriptDefaultMsg p ∨
      (generateTranscriptRun respT textT p).1 = transcriptErrorMsg p) ∧
    ((generateMcqsRun parse respM textM q).1 = createFallbackMcqs q ∨
      ∃ so m qs, respM = .ok so ∧ extractJsonArray (so.getD []) = some m ∧ parse m = some qs ∧
        0 < qs.length ∧ (generateMcqsRun parse respM textM q).1 = attachPageId q qs) := by
  constructor
  · cases respT with
    | error e => exact Or.inr (Or.inr rfl)
    | ok o =>
      cases o with
      | none => exact Or.inr (Or.inl rfl)
      | some t => exact Or.inl ⟨t, rfl, rfl⟩
  · by_cases hshort : (trimChars (textM.take MAX_INPUT_TEXT_LENGTH)).length < MIN_TEXT_LENGTH
    · exact Or.inl (by simp only [generateMcqsRun, if_pos hshort])
    · cases respM with
      | error e => exact Or.inl (by simp only [generateMcqsRun, if_neg hshort])
      | ok so =>
        cases hex : extractJsonArray (so.getD []) with
        | none => exact Or.inl (by simp only [generateMcqsRun, if_neg hshort, hex])
        | some m =>
          cases hp : parse m with
          | none => exact Or.inl (by simp only [generateMcqsRun, if_neg hshort, hex, hp])
          | some qs =>
            by_cases hlen : 0 < qs.length
            · refine Or.inr ⟨so, m, qs, rfl, hex, hp, hlen, ?_⟩
              simp only [generateMcqsRun, if_neg hshort, hex, hp, if_pos hlen]
            · exact Or.inl (by simp only [generateMcqsRun, if_neg hshort, hex, hp, if_neg hlen])

/-- Witness for the round-trip theorem at a concrete one-page document and an
empty database. -/
theorem storeDocument_getDocument_roundtrip_witness :
    ((⟨"f".toList, "t".toList, [(1, ["t".toList])], 1, 1⟩ : ChunkedDocument).totalPages =
      (⟨"f".toList, "t".toList, [(1, ["t".toList])], 1, 1⟩ : ChunkedDocument).pageChunks.length) ∧
    ((⟨"f".toList, "t".toList, [(1, ["t".toList])], 1, 1⟩ : ChunkedDocument).totalChunks =
      ((⟨"f".toList, "t".toList, [(1, ["t".toList])], 1, 1⟩ : ChunkedDocument).pageChunks.map
        (fun pc => pc.2.length)).sum) ∧
    (getDocument (⟨"f".toList, "t".toList, [(1, ["t".toList])], 1, 1⟩ : ChunkedDocument).filename
        (storeDocument (⟨"f".toList, "t".toList, [(1, ["t".toList])], 1, 1⟩ : ChunkedDocument) []) =
      some ⟨"f".toList, "t".toList, [(1, ["t".toList])], 1, 1⟩ ∧
    ∀ (f : List Char) (db2 : List (List Char × DocRow)) (g : ChunkedDocument),
      getDocument f db2 = some g →
      g.totalPages = g.pageChunks.length ∧
      g.totalChunks = (g.pageChunks.map (fun pc => pc.2.length)).sum) :=
  ⟨by decide, by decide,
   storeDocument_getDocument_roundtrip ⟨"f".toList, "t".toList, [(1, ["t".toList])], 1, 1⟩ []
     (by decide) (by decide)⟩

/-- C3 counterexample: a backend that fails with a retryable error on attempts
0 and 1 and would succeed on attempt 2 does not lead to success in 3 attempts:
with `MAX_RETRIES = 1` the source gives up after 2 attempts and propagates the
second error. -/
theorem generateEmbedding_three_attempts_counterexample :
    cexBackend3 0 = .error upstreamErr ∧ cexBackend3 1 = .error upstreamErr ∧
    cexBackend3 2 = .ok [1] ∧ isRetryableErr upstreamErr = true ∧
    generateEmbeddingRun cexBackend3 = (.error upstreamErr, 2) :=
  ⟨rfl, rfl, rfl, rfl, rfl⟩

/-- C3 amended: with the configured budget `MAX_RETRIES = 1`, a retryable
failure followed by a success yields the successful vector in exactly 2
attempts; two consecutive failures the first of which is retryable exhaust the
budget after exactly 2 attempts; a non-retryable (fatal) failure propagates
immediately after 1 attempt. -/
theorem generateEmbedding_retry_budget
    (bRS bRR bF : Nat → Except JsError (List Int))
    (v : List Int) (e1 e2 e3 f1 : JsError)
    (h1 : bRS 0 = .error e1) (h2 : isRetryableErr e1 = true)
    (h3 : bRS 1 = .ok v) (h4 : v ≠ [])
    (h5 : bRR 0 = .error e2) (h6 : isRetryableErr e2 = true)
    (h7 : bRR 1 = .error e3)
    (h8 : bF 0 = .error f1) (h9 : isRetryableErr f1 = false) :
    generateEmbeddingRun bRS = (.ok ⟨v, v.length⟩, 2) ∧
    generateEmbeddingRun bRR = (.error e3, 2) ∧
    generateEmbeddingRun bF = (.error f1, 1) := by
  have hv : ¬ v.length = 0 := by simpa [List.length_eq_zero] using h4
  refine ⟨?_, ?_, ?_⟩
  · simp [generateEmbeddingRun, MAX_RETRIES, generateEmbeddingGo, attemptOnce, h1, h2, h3, hv]
  · simp [generateEmbeddingRun, MAX_RETRIES, generateEmbeddingGo, attemptOnce, h5, h6, h7]
  · simp [generateEmbeddingRun, MAX_RETRIES, generateEmbeddingGo, attemptOnce, h8, h9]

/-- Witness for the retry-budget theorem at three concrete backends. -/
theorem generateEmbedding_retry_budget_witness :
    ((fun n => if n = 0 then Except.error upstreamErr else Except.ok ([1] : List Int)) 0 =
      Except.error upstreamErr) ∧
    isRetryableErr upstreamErr = true ∧
    ((fun n => if n = 0 then Except.error upstreamErr else Except.ok ([1] : List Int)) 1 =
      Except.ok [1]) ∧
    ([1] : List Int) ≠ [] ∧
    (((fun n => if n = 0 then Except.error upstreamErr else Except.error fatalErr) : Nat → Except JsError (List Int)) 0 =
      Except.error upstreamErr) ∧
    (((fun n => if n = 0 then Except.error upstreamErr else Except.error fatalErr) : Nat → Except JsError (List Int)) 1 =
      Except.error fatalErr) ∧
    (((fun _ => Except.error fatalErr) : Nat → Except JsError (List Int)) 0 = Except.error fatalErr) ∧
    isRetryableErr fatalErr = false ∧
    (generateEmbeddingRun (fun n => if n = 0 then Except.error upstreamErr else Except.ok ([1] : List Int)) =
        (Except.ok ⟨[1], ([1] : List Int).length⟩, 2) ∧
      generateEmbeddingRun ((fun n => if n = 0 then Except.error upstreamErr else Except.error fatalErr) : Nat → Except JsError (List Int)) =
        (Except.error fatalErr, 2) ∧
      generateEmbeddingRun ((fun _ => Except.error fatalErr) : Nat → Except JsError (List Int)) = (Except.error fatalErr, 1)) := by
  refine ⟨rfl, rfl, rfl, by decide, rfl, rfl, rfl, by decide, ?_⟩
  exact generateEmbedding_retry_budget
    (fun n => if n = 0 then Except.error upstreamErr else Except.ok ([1] : List Int))
    ((fun n => if n = 0 then Except.error upstreamErr else Except.error fatalErr) : Nat → Except JsError (List Int))
    ((fun _ => Except.error fatalErr) : Nat → Except JsError (List Int))
    [1] upstreamErr upstreamErr fatalErr fatalErr
    rfl rfl rfl (by decide) rfl rfl rfl rfl (by decide)

/-- C5 counterexample: at `(chunkSize, overlap) = (1, 1)` on the text `ab`
(longer than the chunk size) the source loop neither rejects the parameters
nor finishes: its result type has no error outcome at all, and after 50 loop
iterations it is still running, so no chunk list and no `ValidationError` is
ever produced. -/
theorem chunkText_no_reject_counterexample :
    chunkLoop ("ab".toList) 1 1 50 0 [] = none ∧ chunkTextGen 1 1 ("ab".toList) = none := by
  constructor
  · decide
  · decide

/-- C5 amended: `chunkText` performs no parameter validation and raises no
`ValidationError`; if `overlap` equalled `chunkSize` on a text longer than
`chunkSize`, the advance step would be 0 and the loop would never finish for
any amount of fuel, producing no result at all.  (In the deployed
configuration `CHUNK_OVERLAP = 50 < 400 = CHUNK_SIZE`, so this situation is
unreachable.) -/
theorem chunkLoop_nontermination (cs : Nat) (text : List Char) (h : cs < text.length) :
    (∀ (fuel startIndex : Nat) (chunks : List (List Char)), startIndex < text.length →
      chunkLoop text cs cs fuel startIndex chunks = none) ∧
    chunkTextGen cs cs text = none := by
  have main : ∀ (fuel startIndex : Nat) (chunks : List (List Char)), startIndex < text.length →
      chunkLoop text cs cs fuel startIndex chunks = none := by
    intro fuel
    induction fuel with
    | zero => intro s c hs; rfl
    | succ n ih =>
      intro s c hs
      have hcc : cs - cs = 0 := Nat.sub_self cs
      simp only [chunkLoop, if_pos hs, hcc, Nat.add_zero]
      rw [if_neg (by omega)]
      exact ih s _ hs
  refine ⟨main, ?_⟩
  unfold chunkTextGen
  rw [if_neg (by omega)]
  exact main text.length 0 [] (by omega)

/-- Witness for the non-termination theorem at `chunkSize = 1`, text `ab`. -/
theorem chunkLoop_nontermination_witness :
    1 < ("ab".toList).length ∧
    ((∀ (fuel startIndex : Nat) (chunks : List (List Char)), startIndex < ("ab".toList).length →
      chunkLoop ("ab".toList) 1 1 fuel startIndex chunks = none) ∧
    chunkTextGen 1 1 ("ab".toList) = none) :=
  ⟨by decide, chunkLoop_nontermination 1 ("ab".toList) (by decide)⟩

/-- C2 counterexample: with `(chunkSize, overlap) = (4, 2)` on `abc defg` the
produced chunks are `abc`, `c de`, `defg`, `fg`; the pair (`abc`, `c de`) does
not involve the final chunk, yet the last 2 characters of `abc` (`bc`) differ
from the first 2 of `c de` (`c` and a space): whitespace trimming breaks the
exact-character-overlap property. -/
theorem chunkText_overlap_counterexample :
    chunkTextGen 4 2 ("abc defg".toList) =
      some ["abc".toList, "c de".toList, "defg".toList, "fg".toList] ∧
    ¬ (("abc".toList).drop (("abc".toList).length - 2) = ("c de".toList).take 2) := by
  constructor
  · decide
  · decide

/-! ## Window characterisation of the chunk loop -/

theorem lt_numWindows_iff (len s k : Nat) (hs : 0 < s) : k < numWindows len s ↔ k * s < len := by
  unfold numWindows
  rw [Nat.lt_iff_add_one_le, Nat.le_div_iff_mul_le hs]
  have h1 : (k + 1) * s = k * s + s := Nat.succ_mul k s
  rw [h1]
  generalize k * s = m
  omega

theorem numWindows_le (len s : Nat) (hs : 0 < s) : numWindows len s ≤ len := by
  by_contra hlt
  push_neg at hlt
  have h1 := (lt_numWindows_iff len s len hs).mp hlt
  have h2 : len ≤ len * s := by
    calc len = len * 1 := (Nat.mul_one len).symm
    _ ≤ len * s := Nat.mul_le_mul_left len hs
  omega

theorem sliceChars_length (t : List Char) (a b : Nat) :
    (sliceChars t a b).length = min b t.length - a := by
  simp [sliceChars]

theorem windowAt_length_le (text : List Char) (cs s k : Nat) :
    (windowAt text cs s k).length ≤ cs := by
  rw [windowAt, sliceChars_length]
  omega

theorem windowAt_overlap (text : List Char) (cs ov k : Nat) (hov : ov < cs)
    (h : k * (cs - ov) + cs ≤ text.length) :
    (windowAt text cs (cs - ov) (k + 1)).take ov = (windowAt text cs (cs - ov) k).drop (cs - ov) := by
  have hsucc : (k + 1) * (cs - ov) = k * (cs - ov) + (cs - ov) := Nat.succ_mul _ _
  simp only [windowAt, sliceChars]
  rw [hsucc]
  generalize hA : k * (cs - ov) = A at h ⊢
  have e1 : min (A + cs) text.length = A + cs := min_eq_left h
  rw [e1]
  have hR : ((text.take (A + cs)).drop A).drop (cs - ov) = (text.drop (A + (cs - ov))).take ov := by
    rw [List.drop_drop, List.drop_take]
    rw [show A + cs - (A + (cs - ov)) = ov from by omega]
  have hL : ((text.take (min (A + (cs - ov) + cs) text.length)).drop (A + (cs - ov))).take ov
      = (text.drop (A + (cs - ov))).take ov := by
    rw [List.drop_take, List.take_take]
    rw [show min ov (min (A + (cs - ov) + cs) text.length - (A + (cs - ov))) = ov from by omega]
  rw [hL, hR]

theorem chunkLoop_windows (text : List Char) (cs ov : Nat) (hov : ov < cs) :
    ∀ (fuel k : Nat) (chunks : List (List Char)),
      numWindows text.length (cs - ov) ≤ k + fuel → k * (cs - ov) < text.length →
      chunkLoop text cs ov fuel (k * (cs - ov)) chunks =
        some (chunks ++ ((List.range' k (numWindows text.length (cs - ov) - k)).map
          (fun j => trimChars (windowAt text cs (cs - ov) j))).filter
            (fun c => decide (0 < c.length))) := by
  have hs : 0 < cs - ov := by omega
  intro fuel
  induction fuel with
  | zero =>
    intro k chunks hfuel hk
    exfalso
    have := (lt_numWindows_iff text.length (cs - ov) k hs).mpr hk
    omega
  | succ n ih =>
    intro k chunks hfuel hk
    have hnW := (lt_numWindows_iff text.length (cs - ov) k hs).mpr hk
    have hsucc : k * (cs - ov) + (cs - ov) = (k + 1) * (cs - ov) := (Nat.succ_mul k (cs - ov)).symm
    simp only [chunkLoop, if_pos hk]
    by_cases hend : text.length ≤ k * (cs - ov) + (cs - ov)
    · have h2 : ¬ ((k + 1) * (cs - ov) < text.length) := by omega
      have h3 : ¬ (k + 1 < numWindows text.length (cs - ov)) := fun hc2 =>
        h2 ((lt_numWindows_iff _ _ _ hs).mp hc2)
      have h4 : numWindows text.length (cs - ov) - k = 1 := by omega
      rw [if_pos hend, h4, List.range'_one]
      simp only [windowAt, List.map_cons, List.map_nil, List.filter_cons, List.filter_nil,
        decide_eq_true_eq]
      by_cases hc : 0 < (trimChars (sliceChars text (k * (cs - ov)) (min (k * (cs - ov) + cs) text.length))).length
      · rw [if_pos hc, if_pos hc]
      · rw [if_neg hc, if_neg hc]
        simp
    · rw [if_neg hend]
      have hlt1 : (k + 1) * (cs - ov) < text.length := by omega
      have hfuel1 : numWindows text.length (cs - ov) ≤ (k + 1) + n := by omega
      have hrange : numWindows text.length (cs - ov) - k
          = (numWindows text.length (cs - ov) - (k + 1)) + 1 := by omega
      rw [show k * (cs - ov) + (cs - ov) = (k + 1) * (cs - ov) from hsucc]
      rw [ih (k + 1) _ hfuel1 hlt1]
      rw [hrange, List.range'_succ]
      simp only [windowAt, List.map_cons, List.filter_cons, decide_eq_true_eq]
      by_cases hc : 0 < (trimChars (sliceChars text (k * (cs - ov)) (min (k * (cs - ov) + cs) text.length))).length
      · rw [if_pos hc, if_pos hc]
        simp [List.append_assoc]
      · rw [if_neg hc, if_neg hc]

/-- C2 amended: for every `(chunkSize, overlap)` with `overlap < chunkSize`,
`chunkTextGen` terminates — `some [text]` when the text fits in one chunk,
else exactly the nonempty whitespace-trims, in order, of the windows starting
at the multiples of `chunkSize - overlap`; every returned chunk has length at
most `chunkSize`; and consecutive windows (before trimming) overlap in
exactly `overlap` characters wherever the earlier window is full-width.
After trimming, the chunk-level character overlap can be smaller (see the
counterexample). -/
theorem chunkTextGen_windows_spec (cs ov : Nat) (text : List Char) (hov : ov < cs) :
    (text.length ≤ cs → chunkTextGen cs ov text = some [text]) ∧
    (cs < text.length →
      chunkTextGen cs ov text =
        some (((List.range' 0 (numWindows text.length (cs - ov))).map
          (fun j => trimChars (windowAt text cs (cs - ov) j))).filter
            (fun c => decide (0 < c.length)))) ∧
    (∀ r, chunkTextGen cs ov text = some r → ∀ c ∈ r, c.length ≤ cs) ∧
    (∀ k, k * (cs - ov) + cs ≤ text.length →
      (windowAt text cs (cs - ov) (k + 1)).take ov = (windowAt text cs (cs - ov) k).drop (cs - ov)) := by
  have hs : 0 < cs - ov := by omega
  have hshort : text.length ≤ cs → chunkTextGen cs ov text = some [text] := by
    intro h
    simp [chunkTextGen, if_pos h]
  have hlong : cs < text.length →
      chunkTextGen cs ov text =
        some (((List.range' 0 (numWindows text.length (cs - ov))).map
          (fun j => trimChars (windowAt text cs (cs - ov) j))).filter
            (fun c => decide (0 < c.length))) := by
    intro h
    have h0 : (0 : Nat) * (cs - ov) < text.length := by
      simpa using (by omega : 0 < text.length)
    have hfuel : numWindows text.length (cs - ov) ≤ 0 + text.length := by
      simpa using numWindows_le text.length (cs - ov) hs
    have hmain := chunkLoop_windows text cs ov hov text.length 0 [] hfuel h0
    unfold chunkTextGen
    rw [if_neg (by omega)]
    simpa using hmain
  refine ⟨hshort, hlong, ?_, fun k hk => windowAt_overlap text cs ov k hov hk⟩
  intro r hr c hcr
  by_cases h : text.length ≤ cs
  · rw [hshort h] at hr
    obtain rfl := Option.some.inj hr
    simp only [List.mem_singleton] at hcr
    subst hcr
    exact h
  · push_neg at h
    rw [hlong h] at hr
    obtain rfl := Option.some.inj hr
    have hcm := List.mem_of_mem_filter hcr
    simp only [List.mem_map] at hcm
    obtain ⟨j, hj, rfl⟩ := hcm
    calc (trimChars (windowAt text cs (cs - ov) j)).length
        ≤ (windowAt text cs (cs - ov) j).length := trimChars_length_le _
      _ ≤ cs := windowAt_length_le text cs (cs - ov) j

/-- Witness for the amended chunking theorem at `(chunkSize, overlap) = (4, 2)`
on the text `abc defg`. -/
theorem chunkTextGen_windows_spec_witness :
    2 < 4 ∧
    ((("abc defg".toList).length ≤ 4 → chunkTextGen 4 2 ("abc defg".toList) = some ["abc defg".toList]) ∧
     (4 < ("abc defg".toList).length → chunkTextGen 4 2 ("abc defg".toList) =
        some (((List.range' 0 (numWindows ("abc defg".toList).length (4 - 2))).map
          (fun j => trimChars (windowAt ("abc defg".toList) 4 (4 - 2) j))).filter
            (fun c => decide (0 < c.length)))) ∧
     (∀ r, chunkTextGen 4 2 ("abc defg".toList) = some r → ∀ c ∈ r, c.length ≤ 4) ∧
     (∀ k, k * (4 - 2) + 4 ≤ ("abc defg".toList).length →
       (windowAt ("abc defg".toList) 4 (4 - 2) (k + 1)).take 2 =
         (windowAt ("abc defg".toList) 4 (4 - 2) k).drop (4 - 2))) :=
  ⟨by decide, chunkTextGen_windows_spec 4 2 ("abc defg".toList) (by decide)⟩

/-! ## Decimal digits: basic facts for the vector-id scheme -/

theorem digitChar_inj_fin : ∀ a b : Fin 10, digitChar a.val = digitChar b.val → a = b := by decide

theorem digitChar_isDigit_fin : ∀ d : Fin 10, (digitChar d.val).isDigit = true := by decide

theorem natDigitsAux_ne_nil (fuel n : Nat) (h : 0 < fuel) : natDigitsAux fuel n ≠ [] := by
  cases fuel with
  | zero => omega
  | succ m =>
    simp only [natDigitsAux]
    by_cases hn : n < 10
    · simp [hn]
    · simp [hn]

theorem natDigitsAux_digits : ∀ (fuel n : Nat), ∀ c ∈ natDigitsAux fuel n, c.isDigit = true := by
  intro fuel
  induction fuel with
  | zero => intro n c hc; cases hc
  | succ m ih =>
    intro n c hc
    by_cases hn : n < 10
    · simp only [natDigitsAux, if_pos hn, List.mem_singleton] at hc
      subst hc
      exact digitChar_isDigit_fin ⟨n, hn⟩
    · simp only [natDigitsAux, if_neg hn, List.mem_append, List.mem_singleton] at hc
      rcases hc with hc | hc
      · exact ih _ _ hc
      · subst hc
        exact digitChar_isDigit_fin ⟨n % 10, Nat.mod_lt n (by omega)⟩

theorem natDigitsAux_fuel_irrel : ∀ (fuel fuel2 n : Nat), n < fuel → n < fuel2 →
    natDigitsAux fuel n = natDigitsAux fuel2 n := by
  intro fuel
  induction fuel with
  | zero => intro fuel2 n h1 _; omega
  | succ m ih =>
    intro fuel2 n h1 h2
    cases fuel2 with
    | zero => omega
    | succ m2 =>
      simp only [natDigitsAux]
      by_cases hn : n < 10
      · simp [hn]
      · simp only [if_neg hn]
        have hd : n / 10 < n := Nat.div_lt_self (by omega) (by omega)
        rw [ih m2 (n / 10) (by omega) (by omega)]

theorem natDigits_ne_nil (n : Nat) : natDigits n ≠ [] :=
  natDigitsAux_ne_nil (n + 1) n (Nat.succ_pos n)

theorem natDigits_digits (n : Nat) : ∀ c ∈ natDigits n, c.isDigit = true :=
  natDigitsAux_digits (n + 1) n

theorem colon_not_mem_natDigits (n : Nat) : ':' ∉ natDigits n := by
  intro h
  exact absurd (natDigits_digits n ':' h) (by decide)

theorem natDigits_inj : ∀ n m : Nat, natDigits n = natDigits m → n = m := by
  intro n
  induction n using Nat.strong_induction_on with
  | _ n ih =>
    intro m h
    unfold natDigits at h
    by_cases hn : n < 10 <;> by_cases hm : m < 10
    · simp only [natDigitsAux, if_pos hn, if_pos hm, List.cons.injEq, and_true] at h
      have h2 : (⟨n, hn⟩ : Fin 10) = ⟨m, hm⟩ := digitChar_inj_fin _ _ h
      exact congrArg Fin.val h2
    · exfalso
      simp only [natDigitsAux, if_pos hn, if_neg hm] at h
      have hlen := congrArg List.length h
      simp only [List.length_append, List.length_singleton, List.length_cons,
        List.length_nil] at hlen
      have hnil : natDigitsAux m (m / 10) = [] := List.length_eq_zero.mp (by omega)
      exact natDigitsAux_ne_nil m (m / 10) (by omega) hnil
    · exfalso
      simp only [natDigitsAux, if_neg hn, if_pos hm] at h
      have hlen := congrArg List.length h
      simp only [List.length_append, List.length_singleton, List.length_cons,
        List.length_nil] at hlen
      have hnil : natDigitsAux n (n / 10) = [] := List.length_eq_zero.mp (by omega)
      exact natDigitsAux_ne_nil n (n / 10) (by omega) hnil
    · simp only [natDigitsAux, if_neg hn, if_neg hm] at h
      obtain ⟨h1, h2⟩ := List.append_inj' h rfl
      have hd1 : n / 10 < n := Nat.div_lt_self (by omega) (by omega)
      have e1 : natDigitsAux n (n / 10) = natDigitsAux (n / 10 + 1) (n / 10) :=
        natDigitsAux_fuel_irrel n (n / 10 + 1) (n / 10) (by omega) (by omega)
      have e2 : natDigitsAux m (m / 10) = natDigitsAux (m / 10 + 1) (m / 10) :=
        natDigitsAux_fuel_irrel m (m / 10 + 1) (m / 10) (by omega) (by omega)
      have hEq : natDigits (n / 10) = natDigits (m / 10) := by
        unfold natDigits
        rw [← e1, ← e2]
        exact h1
      have hdiv : n / 10 = m / 10 := ih (n / 10) hd1 (m / 10) hEq
      have h2' : digitChar (n % 10) = digitChar (m % 10) := by simpa using h2
      have hfin : (⟨n % 10, Nat.mod_lt n (by omega)⟩ : Fin 10)
          = ⟨m % 10, Nat.mod_lt m (by omega)⟩ := digitChar_inj_fin _ _ h2'
      have hmod : n % 10 = m % 10 := congrArg Fin.val hfin
      omega

/-! ## Injectivity of the vector-id scheme -/

theorem split_at_first_colon : ∀ (a1 b1 a2 b2 : List Char), ':' ∉ a1 → ':' ∉ a2 →
    a1 ++ ':' :: b1 = a2 ++ ':' :: b2 → a1 = a2 ∧ b1 = b2 := by
  intro a1
  induction a1 with
  | nil =>
    intro b1 a2 b2 _ h2 h
    cases a2 with
    | nil => simpa using h
    | cons y a2t =>
      exfalso
      simp only [List.nil_append, List.cons_append, List.cons.injEq] at h
      exact h2 (by simp [← h.1])
  | cons x a1t ih =>
    intro b1 a2 b2 h1 h2 h
    cases a2 with
    | nil =>
      exfalso
      simp only [List.cons_append, List.nil_append, List.cons.injEq] at h
      exact h1 (by simp [h.1])
    | cons y a2t =>
      simp only [List.cons_append, List.cons.injEq] at h
      obtain ⟨hxy, hrest⟩ := h
      have h1' : ':' ∉ a1t := fun hm => h1 (List.mem_cons_of_mem _ hm)
      have h2' : ':' ∉ a2t := fun hm => h2 (List.mem_cons_of_mem _ hm)
      obtain ⟨ha, hb⟩ := ih b1 a2t b2 h1' h2' hrest
      exact ⟨by rw [hxy, ha], hb⟩

theorem pageVectorId_inj (f1 f2 : List Char) (n1 n2 : Nat)
    (h : pageVectorId f1 n1 = pageVectorId f2 n2) : f1 = f2 ∧ n1 = n2 := by
  have hr := congrArg List.reverse h
  simp only [pageVectorId, List.reverse_append] at hr
  have hsep : (":page:".toList).reverse = ':' :: 'e' :: 'g' :: 'a' :: 'p' :: ':' :: [] := by decide
  rw [hsep] at hr
  simp only [List.cons_append, List.nil_append] at hr
  have hnc1 : ':' ∉ (natDigits n1).reverse := by
    simp only [List.mem_reverse]
    exact colon_not_mem_natDigits n1
  have hnc2 : ':' ∉ (natDigits n2).reverse := by
    simp only [List.mem_reverse]
    exact colon_not_mem_natDigits n2
  obtain ⟨hd, hrest⟩ := split_at_first_colon _ _ _ _ hnc1 hnc2 hr
  constructor
  · simp only [List.cons.injEq, true_and] at hrest
    exact List.reverse_inj.mp hrest
  · apply natDigits_inj n1 n2
    simpa using congrArg List.reverse hd

theorem fullTextVectorId_inj (f1 f2 : List Char)
    (h : fullTextVectorId f1 = fullTextVectorId f2) : f1 = f2 := by
  have hr := congrArg List.reverse h
  simp only [fullTextVectorId, List.reverse_append] at hr
  have hsep : (":full".toList).reverse = 'l' :: 'l' :: 'u' :: 'f' :: ':' :: [] := by decide
  rw [hsep] at hr
  simp only [List.cons_append, List.nil_append, List.cons.injEq, true_and] at hr
  exact List.reverse_inj.mp hr

theorem full_ne_page (f1 f2 : List Char) (n : Nat) : fullTextVectorId f1 ≠ pageVectorId f2 n := by
  intro h
  have hr := congrArg List.reverse h
  simp only [fullTextVectorId, pageVectorId, List.reverse_append] at hr
  have hsep1 : (":full".toList).reverse = 'l' :: 'l' :: 'u' :: 'f' :: ':' :: [] := by decide
  rw [hsep1] at hr
  simp only [List.cons_append, List.nil_append] at hr
  obtain ⟨c, cr, hcr⟩ : ∃ c cr, (natDigits n).reverse = c :: cr := by
    cases hrev : (natDigits n).reverse with
    | nil => exact absurd (by simpa using congrArg List.reverse hrev) (natDigits_ne_nil n)
    | cons c cr => exact ⟨c, cr, rfl⟩
  rw [hcr] at hr
  simp only [List.cons_append, List.cons.injEq] at hr
  have hcd : c.isDigit = true := by
    apply natDigits_digits n
    have hmem : c ∈ (natDigits n).reverse := by
      rw [hcr]
      exact List.mem_cons_self _ _
    simpa using hmem
  rw [← hr.1] at hcd
  exact absurd hcd (by decide)

/-- C7: `upsertFullTextVector` writes the id `{filename}:full`,
`upsertPageVectors` writes the id `{filename}:page:{n}` for each page `n`, and
the id scheme is injective over `(filename, kind)` — any two distinct
filename/kind pairs (pages carrying their page number) produce different ids,
even when filenames themselves contain colons, so ids never collide across
documents. -/
theorem vectorId_scheme_injective
    (f : List Char) (emb : List Int) (ts : Nat) (pes : List (Nat × List Int))
    (f1 f2 : List Char) (k1 k2 : VectorKind)
    (h : recordId f1 k1 = recordId f2 k2) :
    (upsertFullTextVector f emb ts).id = recordId f VectorKind.full ∧
    (upsertPageVectors f pes ts).map (fun r => r.id) =
      pes.map (fun pe => recordId f (VectorKind.page pe.1)) ∧
    f1 = f2 ∧ k1 = k2 := by
  refine ⟨rfl, by simp [upsertPageVectors, recordId], ?_⟩
  cases k1 with
  | full =>
    cases k2 with
    | full => exact ⟨fullTextVectorId_inj f1 f2 h, rfl⟩
    | page n => exact absurd h (full_ne_page f1 f2 n)
  | page n1 =>
    cases k2 with
    | full => exact absurd h.symm (full_ne_page f2 f1 n1)
    | page n2 =>
      obtain ⟨hf, hn⟩ := pageVectorId_inj f1 f2 n1 n2 h
      exact ⟨hf, by rw [hn]⟩

/-- Witness for the id-scheme theorem at concrete filenames and pages. -/
theorem vectorId_scheme_injective_witness :
    recordId ("a".toList) VectorKind.full = recordId ("a".toList) VectorKind.full ∧
    ((upsertFullTextVector ("b".toList) [1] 7).id = recordId ("b".toList) VectorKind.full ∧
     (upsertPageVectors ("b".toList) [(1, [1]), (2, [2])] 7).map (fun r => r.id) =
       ([(1, [1]), (2, [2])] : List (Nat × List Int)).map
         (fun pe => recordId ("b".toList) (VectorKind.page pe.1)) ∧
     "a".toList = "a".toList ∧ VectorKind.full = VectorKind.full) :=
  ⟨rfl, vectorId_scheme_injective ("b".toList) [1] 7 [(1, [1]), (2, [2])] ("a".toList) ("a".toList)
    VectorKind.full VectorKind.full rfl⟩

/-- C4 at the failing input: for a 101-page document `doc` the written set is
the full-text record plus one record per page 1..101, but
`deleteDocumentVectors` deletes only the full-text id and the guessed page ids
1..100, so the written record `doc:page:101` survives the deletion even though
its id starts with `doc:`. -/
theorem deleteDocumentVectors_misses_page101 :
    (applyDeleteByIds cexWrittenStore (deleteDocumentVectorIds ("doc".toList))).map (fun r => r.id) =
      [pageVectorId ("doc".toList) 101] ∧
    ("doc:".toList).isPrefixOf (pageVectorId ("doc".toList) 101) = true := by
  constructor
  · decide
  · decide
